import Mathlib

/-!
Shallow embedding of the world-editor terrain core (height-field chunk,
brush editing, mesh generation, surface picking, shadow filtering),
translated from the JavaScript sources, together with proofs of the
behavioural claims about it.

JavaScript numbers are modelled as real numbers (`ℝ`); `Float32Array`
stores become `List ℝ`.  Where JavaScript division by zero yields
`NaN`/`Infinity`, the real-number model follows Lean's `x / 0 = 0`
convention; every place where that matters is noted next to the
theorem concerned.
-/

open scoped Classical

noncomputable section

/-- A 3-component vector, as used by gl-matrix `vec3` and the ray code. -/
structure Vec3 where
  x : ℝ
  y : ℝ
  z : ℝ

/-- A 4-component vector (GLSL `vec4`), used for the light-space position. -/
structure Vec4 where
  x : ℝ
  y : ℝ
  z : ℝ
  w : ℝ

/-- A placed object record (`Chunk.addObject` shape). -/
structure PlacedObject where
  type : String
  position : Vec3
  rotation : ℝ
  scale : ℝ

/-- The chunk state: `Chunk` from `Chunk.js` (fields `size`, `resolution`,
`heights`, `objects`, `terrainDirty`). -/
structure Chunk where
  size : ℝ
  resolution : ℕ
  heights : List ℝ
  objects : List PlacedObject
  terrainDirty : Bool

namespace Chunk

/-- `new Chunk(size, resolution)`: flat heights (all zero), no objects,
dirty flag set. -/
def new (size : ℝ) (resolution : ℕ) : Chunk :=
  { size := size
    resolution := resolution
    heights := List.replicate (resolution * resolution) 0
    objects := []
    terrainDirty := true }

/-- The default chunk `new Chunk(64, 65)`. -/
def defaultChunk : Chunk := Chunk.new 64 65

/-- `Chunk.getHeight(x, z)`: 0 outside `[0, resolution)²`, otherwise the
row-major sample `heights[z * resolution + x]`. -/
def getHeight (c : Chunk) (x z : ℤ) : ℝ :=
  if x < 0 ∨ (c.resolution : ℤ) ≤ x ∨ z < 0 ∨ (c.resolution : ℤ) ≤ z then 0
  else c.heights.getD (z * c.resolution + x).toNat 0

/-- `Chunk.setHeight(x, z, h)`: out-of-range writes are ignored, in-range
writes store the value and set the dirty flag. -/
def setHeight (c : Chunk) (x z : ℤ) (h : ℝ) : Chunk :=
  if x < 0 ∨ (c.resolution : ℤ) ≤ x ∨ z < 0 ∨ (c.resolution : ℤ) ≤ z then c
  else { c with
          heights := c.heights.set (z * c.resolution + x).toNat h
          terrainDirty := true }

/-- World-to-grid coordinate map `(world / size) * (resolution - 1)`,
shared by `getHeightAt` and `applyBrush`. -/
def gridCoord (c : Chunk) (world : ℝ) : ℝ :=
  world / c.size * ((c.resolution : ℝ) - 1)

/-- `Chunk.getHeightAt(worldX, worldZ)`: bilinear interpolation of the four
samples around the fractional grid coordinate, with the integer cell
clamped to `[0, resolution - 2]`. -/
def getHeightAt (c : Chunk) (worldX worldZ : ℝ) : ℝ :=
  let gridX := c.gridCoord worldX
  let gridZ := c.gridCoord worldZ
  let x : ℤ := max 0 (min ((c.resolution : ℤ) - 2) ⌊gridX⌋)
  let z : ℤ := max 0 (min ((c.resolution : ℤ) - 2) ⌊gridZ⌋)
  let fx := gridX - (x : ℝ)
  let fz := gridZ - (z : ℝ)
  let h00 := c.getHeight x z
  let h10 := c.getHeight (x + 1) z
  let h01 := c.getHeight x (z + 1)
  let h11 := c.getHeight (x + 1) (z + 1)
  let h0 := h00 * (1 - fx) + h10 * fx
  let h1 := h01 * (1 - fx) + h11 * fx
  h0 * (1 - fz) + h1 * fz

/-- Brush radius converted to grid units, `(radius / size) * (resolution - 1)`. -/
def gridRadius (c : Chunk) (radius : ℝ) : ℝ :=
  radius / c.size * ((c.resolution : ℝ) - 1)

/-- `minX` of the clipped brush rectangle. -/
def brushMinX (c : Chunk) (worldX radius : ℝ) : ℤ :=
  max 0 ⌊c.gridCoord worldX - c.gridRadius radius⌋

/-- `maxX` of the clipped brush rectangle. -/
def brushMaxX (c : Chunk) (worldX radius : ℝ) : ℤ :=
  min ((c.resolution : ℤ) - 1) ⌈c.gridCoord worldX + c.gridRadius radius⌉

/-- `minZ` of the clipped brush rectangle. -/
def brushMinZ (c : Chunk) (worldZ radius : ℝ) : ℤ :=
  max 0 ⌊c.gridCoord worldZ - c.gridRadius radius⌋

/-- `maxZ` of the clipped brush rectangle. -/
def brushMaxZ (c : Chunk) (worldZ radius : ℝ) : ℤ :=
  min ((c.resolution : ℤ) - 1) ⌈c.gridCoord worldZ + c.gridRadius radius⌉

/-- Euclidean grid-space distance from cell `(x, z)` to the brush center. -/
def gridDist (c : Chunk) (worldX worldZ : ℝ) (x z : ℤ) : ℝ :=
  Real.sqrt (((x : ℝ) - c.gridCoord worldX) * ((x : ℝ) - c.gridCoord worldX) +
             ((z : ℝ) - c.gridCoord worldZ) * ((z : ℝ) - c.gridCoord worldZ))

end Chunk

/-- The inclusive integer range `lo..hi` (`for (v = lo; v <= hi; v++)`);
empty when `hi < lo`. -/
def rangeInt (lo hi : ℤ) : List ℤ :=
  (List.range (hi + 1 - lo).toNat).map fun (i : ℕ) => lo + (i : ℤ)

namespace Chunk

/-- One iteration of the `applyBrush` loop body at cell `(x, z)`: if the
cell is within the grid radius of the center, add
`strength * falloff * sign` to its height.  The center and radius are the
loop-invariant values computed from `c` before the loop. -/
def brushCell (c : Chunk) (worldX worldZ radius strength : ℝ) (lower : Bool)
    (acc : Chunk) (x z : ℤ) : Chunk :=
  let dist := c.gridDist worldX worldZ x z
  if dist ≤ c.gridRadius radius then
    let falloff := 1 - dist / c.gridRadius radius
    let delta := strength * falloff * (if lower then -1 else 1)
    acc.setHeight x z (acc.getHeight x z + delta)
  else acc

/-- `Chunk.applyBrush(worldX, worldZ, radius, strength, lower)`: the nested
loop over the clipped bounding rectangle, then `terrainDirty = true`. -/
def applyBrush (c : Chunk) (worldX worldZ radius strength : ℝ)
    (lower : Bool) : Chunk :=
  let c1 := (rangeInt (c.brushMinZ worldZ radius) (c.brushMaxZ worldZ radius)).foldl
    (fun accz z =>
      (rangeInt (c.brushMinX worldX radius) (c.brushMaxX worldX radius)).foldl
        (fun acc x => c.brushCell worldX worldZ radius strength lower acc x z) accz)
    c
  { c1 with terrainDirty := true }

/-- `Chunk.reset()`: flat heights, objects cleared, dirty flag set
(`heights.fill(0)` keeps the array length). -/
def reset (c : Chunk) : Chunk :=
  { c with
     heights := List.replicate c.heights.length 0
     objects := []
     terrainDirty := true }

end Chunk

/-- The serialized chunk record produced by `Chunk.toJSON`. -/
structure ChunkRecord where
  version : String
  size : ℝ
  resolution : ℕ
  heights : List ℝ
  objects : List PlacedObject

namespace Chunk

/-- `Chunk.toJSON()`. -/
def toJSON (c : Chunk) : ChunkRecord :=
  { version := "1.0"
    size := c.size
    resolution := c.resolution
    heights := c.heights
    objects := c.objects }

/-- `Chunk.fromJSON(data)`: replaces `size`, `resolution`, `heights` and
`objects` from the record and sets the dirty flag.  (`data.objects || []`
is the record's object list whenever one is present, as it always is for
a record produced by `toJSON`.) -/
def fromJSON (c : Chunk) (data : ChunkRecord) : Chunk :=
  { size := data.size
    resolution := data.resolution
    heights := data.heights
    objects := data.objects
    terrainDirty := true }

/-- The height-field well-formedness invariant on the sample store:
`heights.length == resolution²`. -/
def WF (c : Chunk) : Prop :=
  c.heights.length = c.resolution * c.resolution

end Chunk

namespace Vec3

/-- gl-matrix `vec3.subtract`. -/
def sub (a b : Vec3) : Vec3 := ⟨a.x - b.x, a.y - b.y, a.z - b.z⟩

/-- gl-matrix `vec3.cross`. -/
def cross (a b : Vec3) : Vec3 :=
  ⟨a.y * b.z - a.z * b.y, a.z * b.x - a.x * b.z, a.x * b.y - a.y * b.x⟩

/-- gl-matrix `vec3.normalize`: scales by `1 / sqrt(len)` when the squared
length is positive, otherwise multiplies by the (zero) squared length,
yielding the zero vector. -/
def normalize (v : Vec3) : Vec3 :=
  let len := v.x * v.x + v.y * v.y + v.z * v.z
  let s := if 0 < len then 1 / Real.sqrt len else len
  ⟨v.x * s, v.y * s, v.z * s⟩

end Vec3

/-- The vertex-position list of `TerrainRenderer.generateMesh`: row-major
grid of `resolution²` world-space positions, with the stored height as the
y coordinate. -/
def terrainVertices (c : Chunk) : List Vec3 :=
  (List.range c.resolution).flatMap fun (z : ℕ) =>
    (List.range c.resolution).map fun (x : ℕ) =>
      ⟨((x : ℝ) / ((c.resolution : ℝ) - 1)) * c.size,
       c.heights.getD (z * c.resolution + x) 0,
       ((z : ℝ) / ((c.resolution : ℝ) - 1)) * c.size⟩

/-- The triangle index list of `generateMesh`: two triangles per grid quad,
`(topLeft, bottomLeft, topRight)` then `(topRight, bottomLeft, bottomRight)`. -/
def terrainTriangles (c : Chunk) : List (ℕ × ℕ × ℕ) :=
  (List.range (c.resolution - 1)).flatMap fun z =>
    (List.range (c.resolution - 1)).flatMap fun x =>
      let topLeft := z * c.resolution + x
      let topRight := topLeft + 1
      let bottomLeft := (z + 1) * c.resolution + x
      let bottomRight := bottomLeft + 1
      [(topLeft, bottomLeft, topRight), (topRight, bottomLeft, bottomRight)]

/-- The face normal computed by `generateMesh` for one index triple:
normalized cross product of the two edge vectors from the first corner. -/
def triNormal (c : Chunk) (t : ℕ × ℕ × ℕ) : Vec3 :=
  let vs := terrainVertices c
  let v0 := vs.getD t.1 ⟨0, 0, 0⟩
  let v1 := vs.getD t.2.1 ⟨0, 0, 0⟩
  let v2 := vs.getD t.2.2 ⟨0, 0, 0⟩
  Vec3.normalize (Vec3.cross (Vec3.sub v1 v0) (Vec3.sub v2 v0))

/-- Writing one triangle's flat normal into the normal slots of its three
vertex indices (`flatNormals[i0] = flatNormals[i1] = flatNormals[i2] = n`). -/
def writeTri (acc : List Vec3) (t : ℕ × ℕ × ℕ) (n : Vec3) : List Vec3 :=
  ((acc.set t.1 n).set t.2.1 n).set t.2.2 n

/-- The per-vertex-index normal store after `generateMesh`'s flat-normal
pass: initialized to zero, then each triangle in order overwrites the
slots of its three indices with its face normal. -/
def terrainNormals (c : Chunk) : List Vec3 :=
  (terrainTriangles c).foldl
    (fun acc t => writeTri acc t (triNormal c t))
    (List.replicate (terrainVertices c).length ⟨0, 0, 0⟩)

/-- `Camera.rayPlaneIntersection(ray, planeY)`: null when the ray is
near-parallel to the plane (`|direction.y| < 0.0001`) or the intersection
parameter is negative, else the point on the plane. -/
def rayPlaneIntersection (origin direction : Vec3) (planeY : ℝ) : Option Vec3 :=
  if |direction.y| < 0.0001 then none
  else
    let t := (planeY - origin.y) / direction.y
    if t < 0 then none
    else some ⟨origin.x + direction.x * t, planeY, origin.z + direction.z * t⟩

/-- One step of `EditorUI.findTerrainIntersection`'s ray march, at
`t = k * 0.5`: a hit when the sample point is inside `[0, size]²`
horizontally and its height is at or below the interpolated terrain
height, in which case the terrain height replaces the ray height. -/
def marchStep (c : Chunk) (origin direction : Vec3) (k : ℕ) : Option Vec3 :=
  let t : ℝ := (k : ℝ) * 0.5
  let px := origin.x + direction.x * t
  let py := origin.y + direction.y * t
  let pz := origin.z + direction.z * t
  if 0 ≤ px ∧ px ≤ c.size ∧ 0 ≤ pz ∧ pz ≤ c.size then
    let terrainHeight := c.getHeightAt px pz
    if py ≤ terrainHeight then some ⟨px, terrainHeight, pz⟩ else none
  else none

/-- `EditorUI.findTerrainIntersection(ray)`: march in steps of 0.5 world
units up to distance 200 (`t = 0, 0.5, …, 199.5`, i.e. 400 steps) and
return the first hit; fall back to the `y = 0` plane intersection. -/
def findTerrainIntersection (c : Chunk) (origin direction : Vec3) : Option Vec3 :=
  match (List.range 400).findSome? (marchStep c origin direction) with
  | some p => some p
  | none => rayPlaneIntersection origin direction 0

/-- GLSL `dot` on `vec3`. -/
def dot3 (a b : Vec3) : ℝ := a.x * b.x + a.y * b.y + a.z * b.z

/-- GLSL `normalize` (`v / length(v)`; the zero vector maps to zero under
the real-division convention). -/
def glslNormalize (v : Vec3) : Vec3 :=
  let len := Real.sqrt (v.x * v.x + v.y * v.y + v.z * v.z)
  ⟨v.x / len, v.y / len, v.z / len⟩

/-- Light-space x after perspective divide and remap to `[0,1]`. -/
def projX (lsp : Vec4) : ℝ := lsp.x / lsp.w * 0.5 + 0.5

/-- Light-space y after perspective divide and remap to `[0,1]`. -/
def projY (lsp : Vec4) : ℝ := lsp.y / lsp.w * 0.5 + 0.5

/-- Light-space depth after perspective divide and remap to `[0,1]`. -/
def projZ (lsp : Vec4) : ℝ := lsp.z / lsp.w * 0.5 + 0.5

/-- The 3×3 PCF kernel offsets, in the shader's loop order
(`x = -1..1` outer, `y = -1..1` inner). -/
def pcfOffsets : List (ℝ × ℝ) :=
  [(-1, -1), (-1, 0), (-1, 1), (0, -1), (0, 0), (0, 1), (1, -1), (1, 0), (1, 1)]

/-- `calculateShadow` from `terrain.frag`: early-out to full light when the
remapped light-space coordinate fails the guard, else the average of the
nine PCF pass/fail comparisons against the biased fragment depth.
`shadowMap u v` is the depth texture sample `texture(uShadowMap, vec2(u,v)).r`
and `texelX, texelY` the texel size. -/
def calculateShadow (lsp : Vec4) (nrm lightDir : Vec3)
    (shadowMap : ℝ → ℝ → ℝ) (texelX texelY : ℝ) : ℝ :=
  if 1 < projZ lsp ∨ projX lsp < 0 ∨ 1 < projX lsp ∨
     projY lsp < 0 ∨ 1 < projY lsp then 1
  else
    let currentDepth := projZ lsp
    let N := glslNormalize nrm
    let cosTheta := max (dot3 N lightDir) 0
    let bias := max (0.002 * (1 - cosTheta)) 0.001
    let taps := pcfOffsets.foldl
      (fun s o =>
        let pcfDepth := shadowMap (projX lsp + o.1 * texelX) (projY lsp + o.2 * texelY)
        s + (if pcfDepth < currentDepth - bias then 0 else 1)) 0
    taps / 9

end

/-! ### Basic lemmas about the height store -/

lemma setHeight_size (c : Chunk) (x z : ℤ) (h : ℝ) :
    (c.setHeight x z h).size = c.size := by
  unfold Chunk.setHeight; split <;> rfl

lemma setHeight_resolution (c : Chunk) (x z : ℤ) (h : ℝ) :
    (c.setHeight x z h).resolution = c.resolution := by
  unfold Chunk.setHeight; split <;> rfl

lemma setHeight_objects (c : Chunk) (x z : ℤ) (h : ℝ) :
    (c.setHeight x z h).objects = c.objects := by
  unfold Chunk.setHeight; split <;> rfl

lemma setHeight_length (c : Chunk) (x z : ℤ) (h : ℝ) :
    (c.setHeight x z h).heights.length = c.heights.length := by
  unfold Chunk.setHeight; split
  · rfl
  · simp

/-- Row-major index injectivity on the in-range grid. -/
lemma gridIndex_inj {R x z x0 z0 : ℤ} (hx : 0 ≤ x ∧ x < R) (hx0 : 0 ≤ x0 ∧ x0 < R)
    (heq : z0 * R + x0 = z * R + x) : x0 = x ∧ z0 = z := by
  have h1 : (z0 - z) * R = x - x0 := by ring_nf; linarith
  rcases lt_trichotomy z0 z with h | h | h
  · exfalso
    have h2 : z0 - z ≤ -1 := by omega
    have h3 : (z0 - z) * R ≤ (-1) * R := by
      apply mul_le_mul_of_nonneg_right h2; omega
    linarith
  · subst h
    constructor
    · linarith
    · rfl
  · exfalso
    have h2 : 1 ≤ z0 - z := by omega
    have h3 : 1 * R ≤ (z0 - z) * R := by
      apply mul_le_mul_of_nonneg_right h2; omega
    linarith

lemma getHeight_setHeight_same (c : Chunk) (hWF : c.WF) (x z : ℤ) (h : ℝ)
    (hx0 : 0 ≤ x) (hx1 : x < (c.resolution : ℤ))
    (hz0 : 0 ≤ z) (hz1 : z < (c.resolution : ℤ)) :
    (c.setHeight x z h).getHeight x z = h := by
  have hguard : ¬(x < 0 ∨ (c.resolution : ℤ) ≤ x ∨ z < 0 ∨ (c.resolution : ℤ) ≤ z) := by
    push_neg; omega
  have hR : (0 : ℤ) < c.resolution := by omega
  have hnn : 0 ≤ z * (c.resolution : ℤ) + x := by nlinarith
  have hlt : z * (c.resolution : ℤ) + x < (c.resolution : ℤ) * c.resolution := by nlinarith
  have hidx : (z * (c.resolution : ℤ) + x).toNat < c.heights.length := by
    unfold Chunk.WF at hWF
    rw [hWF]
    omega
  unfold Chunk.setHeight
  rw [if_neg hguard]
  unfold Chunk.getHeight
  simp only
  rw [if_neg hguard]
  rw [List.getD_eq_getElem?_getD, List.getElem?_set]
  simp [hidx]

lemma getHeight_setHeight_ne (c : Chunk) (x z x0 z0 : ℤ) (h : ℝ)
    (hne : x0 ≠ x ∨ z0 ≠ z) :
    (c.setHeight x z h).getHeight x0 z0 = c.getHeight x0 z0 := by
  unfold Chunk.setHeight
  split
  · rfl
  case isFalse hg =>
    push_neg at hg
    unfold Chunk.getHeight
    simp only
    by_cases hg0 : x0 < 0 ∨ (c.resolution : ℤ) ≤ x0 ∨ z0 < 0 ∨ (c.resolution : ℤ) ≤ z0
    · rw [if_pos hg0, if_pos hg0]
    · rw [if_neg hg0, if_neg hg0]
      push_neg at hg0
      have hidx : (z0 * (c.resolution : ℤ) + x0).toNat ≠ (z * (c.resolution : ℤ) + x).toNat := by
        intro hcon
        have hnn0 : 0 ≤ z0 * (c.resolution : ℤ) + x0 := by nlinarith [hg0.1, hg0.2.1, hg0.2.2.1]
        have hnn : 0 ≤ z * (c.resolution : ℤ) + x := by nlinarith [hg.1, hg.2.1, hg.2.2.1]
        have heq : z0 * (c.resolution : ℤ) + x0 = z * (c.resolution : ℤ) + x := by omega
        have := gridIndex_inj ⟨hg.1, hg.2.1⟩ ⟨hg0.1, hg0.2.1⟩ heq
        rcases hne with hne | hne <;> [exact hne this.1; exact hne this.2]
      rw [List.getD_eq_getElem?_getD, List.getD_eq_getElem?_getD, List.getElem?_set]
      rw [if_neg (by omega)]

/-! ### The brush loop, cell by cell -/

lemma brushCell_eq (c : Chunk) (wx wz r s : ℝ) (lo : Bool) (acc : Chunk) (x z : ℤ) :
    Chunk.brushCell c wx wz r s lo acc x z =
      if c.gridDist wx wz x z ≤ c.gridRadius r then
        acc.setHeight x z (acc.getHeight x z +
          s * (1 - c.gridDist wx wz x z / c.gridRadius r) * (if lo then -1 else 1))
      else acc := rfl

lemma brushCell_shape (c : Chunk) (wx wz r s : ℝ) (lo : Bool) (acc : Chunk) (x z : ℤ) :
    (Chunk.brushCell c wx wz r s lo acc x z).size = acc.size ∧
    (Chunk.brushCell c wx wz r s lo acc x z).resolution = acc.resolution ∧
    (Chunk.brushCell c wx wz r s lo acc x z).objects = acc.objects ∧
    (Chunk.brushCell c wx wz r s lo acc x z).heights.length = acc.heights.length := by
  rw [brushCell_eq]
  split
  · exact ⟨setHeight_size .., setHeight_resolution .., setHeight_objects .., setHeight_length ..⟩
  · exact ⟨rfl, rfl, rfl, rfl⟩

lemma brushCell_getHeight_same (c : Chunk) (wx wz r s : ℝ) (lo : Bool) (acc : Chunk)
    (hres : acc.resolution = c.resolution)
    (hlen : acc.heights.length = c.resolution * c.resolution)
    (x z : ℤ) (hx : 0 ≤ x ∧ x < (c.resolution : ℤ)) (hz : 0 ≤ z ∧ z < (c.resolution : ℤ)) :
    (Chunk.brushCell c wx wz r s lo acc x z).getHeight x z =
      if c.gridDist wx wz x z ≤ c.gridRadius r then
        acc.getHeight x z +
          s * (1 - c.gridDist wx wz x z / c.gridRadius r) * (if lo then -1 else 1)
      else acc.getHeight x z := by
  rw [brushCell_eq]
  split
  · apply getHeight_setHeight_same
    · unfold Chunk.WF; rw [hlen, hres]
    · exact hx.1
    · rw [hres]; exact hx.2
    · exact hz.1
    · rw [hres]; exact hz.2
  · rfl

lemma brushCell_getHeight_ne (c : Chunk) (wx wz r s : ℝ) (lo : Bool) (acc : Chunk)
    (x z x0 z0 : ℤ) (hne : x0 ≠ x ∨ z0 ≠ z) :
    (Chunk.brushCell c wx wz r s lo acc x z).getHeight x0 z0 = acc.getHeight x0 z0 := by
  rw [brushCell_eq]
  split
  · exact getHeight_setHeight_ne acc x z x0 z0 _ hne
  · rfl

lemma brushRow_shape (c : Chunk) (wx wz r s : ℝ) (lo : Bool) (xs : List ℤ) (z : ℤ)
    (acc : Chunk) :
    (xs.foldl (fun a x => Chunk.brushCell c wx wz r s lo a x z) acc).size = acc.size ∧
    (xs.foldl (fun a x => Chunk.brushCell c wx wz r s lo a x z) acc).resolution = acc.resolution ∧
    (xs.foldl (fun a x => Chunk.brushCell c wx wz r s lo a x z) acc).objects = acc.objects ∧
    (xs.foldl (fun a x => Chunk.brushCell c wx wz r s lo a x z) acc).heights.length =
      acc.heights.length := by
  induction xs generalizing acc with
  | nil => exact ⟨rfl, rfl, rfl, rfl⟩
  | cons x xs ih =>
    simp only [List.foldl_cons]
    obtain ⟨h1, h2, h3, h4⟩ := ih (Chunk.brushCell c wx wz r s lo acc x z)
    obtain ⟨g1, g2, g3, g4⟩ := brushCell_shape c wx wz r s lo acc x z
    exact ⟨h1.trans g1, h2.trans g2, h3.trans g3, h4.trans g4⟩

lemma brushRow_getHeight (c : Chunk) (wx wz r s : ℝ) (lo : Bool)
    (xs : List ℤ) (hnd : xs.Nodup)
    (hxs : ∀ x ∈ xs, 0 ≤ x ∧ x < (c.resolution : ℤ))
    (z : ℤ) (hz : 0 ≤ z ∧ z < (c.resolution : ℤ))
    (acc : Chunk) (hres : acc.resolution = c.resolution)
    (hlen : acc.heights.length = c.resolution * c.resolution)
    (x0 z0 : ℤ) :
    (xs.foldl (fun a x => Chunk.brushCell c wx wz r s lo a x z) acc).getHeight x0 z0 =
      if z0 = z ∧ x0 ∈ xs ∧ c.gridDist wx wz x0 z0 ≤ c.gridRadius r then
        acc.getHeight x0 z0 +
          s * (1 - c.gridDist wx wz x0 z0 / c.gridRadius r) * (if lo then -1 else 1)
      else acc.getHeight x0 z0 := by
  induction xs generalizing acc with
  | nil => simp
  | cons x xs ih =>
    simp only [List.foldl_cons]
    obtain ⟨hxmem, hnd2⟩ := List.nodup_cons.mp hnd
    have hx := hxs x (List.mem_cons_self x xs)
    have hxs2 : ∀ a ∈ xs, 0 ≤ a ∧ a < (c.resolution : ℤ) :=
      fun a ha => hxs a (List.mem_cons_of_mem _ ha)
    obtain ⟨g1, g2, g3, g4⟩ := brushCell_shape c wx wz r s lo acc x z
    rw [ih hnd2 hxs2 (Chunk.brushCell c wx wz r s lo acc x z)
        (g2.trans hres) (g4.trans hlen)]
    by_cases hsame : x0 = x ∧ z0 = z
    · obtain ⟨h1, h2⟩ := hsame
      rw [← h1, ← h2]
      have hx0mem : x0 ∉ xs := by rw [h1]; exact hxmem
      have hx0 : 0 ≤ x0 ∧ x0 < (c.resolution : ℤ) := by rw [h1]; exact hx
      have hz0 : 0 ≤ z0 ∧ z0 < (c.resolution : ℤ) := by rw [h2]; exact hz
      rw [if_neg (fun hcon => hx0mem hcon.2.1),
        brushCell_getHeight_same c wx wz r s lo acc hres hlen x0 z0 hx0 hz0]
      by_cases hD : c.gridDist wx wz x0 z0 ≤ c.gridRadius r
      · have hcc : z0 = z0 ∧ x0 ∈ x0 :: xs ∧ c.gridDist wx wz x0 z0 ≤ c.gridRadius r :=
          ⟨rfl, List.mem_cons_self x0 xs, hD⟩
        rw [if_pos hD, if_pos hcc]
      · rw [if_neg hD, if_neg (fun hcon => hD hcon.2.2)]
    · have hB : (Chunk.brushCell c wx wz r s lo acc x z).getHeight x0 z0 =
          acc.getHeight x0 z0 :=
        brushCell_getHeight_ne c wx wz r s lo acc x z x0 z0 (by tauto)
      rw [hB]
      have hiff : (z0 = z ∧ x0 ∈ x :: xs ∧ c.gridDist wx wz x0 z0 ≤ c.gridRadius r) ↔
          (z0 = z ∧ x0 ∈ xs ∧ c.gridDist wx wz x0 z0 ≤ c.gridRadius r) := by
        constructor
        · rintro ⟨h1, h2, h3⟩
          rcases List.mem_cons.mp h2 with h2 | h2
          · exact absurd ⟨h2, h1⟩ hsame
          · exact ⟨h1, h2, h3⟩
        · rintro ⟨h1, h2, h3⟩
          exact ⟨h1, List.mem_cons_of_mem _ h2, h3⟩
      by_cases hc : z0 = z ∧ x0 ∈ xs ∧ c.gridDist wx wz x0 z0 ≤ c.gridRadius r
      · rw [if_pos hc, if_pos (hiff.mpr hc)]
      · rw [if_neg hc, if_neg (fun hcon => hc (hiff.mp hcon))]

lemma brushFold_shape (c : Chunk) (wx wz r s : ℝ) (lo : Bool) (zs xs : List ℤ)
    (acc : Chunk) :
    (zs.foldl (fun a z => xs.foldl
        (fun a2 x => Chunk.brushCell c wx wz r s lo a2 x z) a) acc).size = acc.size ∧
    (zs.foldl (fun a z => xs.foldl
        (fun a2 x => Chunk.brushCell c wx wz r s lo a2 x z) a) acc).resolution = acc.resolution ∧
    (zs.foldl (fun a z => xs.foldl
        (fun a2 x => Chunk.brushCell c wx wz r s lo a2 x z) a) acc).objects = acc.objects ∧
    (zs.foldl (fun a z => xs.foldl
        (fun a2 x => Chunk.brushCell c wx wz r s lo a2 x z) a) acc).heights.length =
      acc.heights.length := by
  induction zs generalizing acc with
  | nil => exact ⟨rfl, rfl, rfl, rfl⟩
  | cons z zs ih =>
    simp only [List.foldl_cons]
    obtain ⟨h1, h2, h3, h4⟩ :=
      ih (xs.foldl (fun a2 x => Chunk.brushCell c wx wz r s lo a2 x z) acc)
    obtain ⟨g1, g2, g3, g4⟩ := brushRow_shape c wx wz r s lo xs z acc
    exact ⟨h1.trans g1, h2.trans g2, h3.trans g3, h4.trans g4⟩

lemma brushFold_getHeight (c : Chunk) (wx wz r s : ℝ) (lo : Bool)
    (zs : List ℤ) (hznd : zs.Nodup)
    (hzs : ∀ z ∈ zs, 0 ≤ z ∧ z < (c.resolution : ℤ))
    (xs : List ℤ) (hxnd : xs.Nodup)
    (hxs : ∀ x ∈ xs, 0 ≤ x ∧ x < (c.resolution : ℤ))
    (acc : Chunk) (hres : acc.resolution = c.resolution)
    (hlen : acc.heights.length = c.resolution * c.resolution)
    (x0 z0 : ℤ) :
    (zs.foldl (fun a z => xs.foldl
        (fun a2 x => Chunk.brushCell c wx wz r s lo a2 x z) a) acc).getHeight x0 z0 =
      if z0 ∈ zs ∧ x0 ∈ xs ∧ c.gridDist wx wz x0 z0 ≤ c.gridRadius r then
        acc.getHeight x0 z0 +
          s * (1 - c.gridDist wx wz x0 z0 / c.gridRadius r) * (if lo then -1 else 1)
      else acc.getHeight x0 z0 := by
  induction zs generalizing acc with
  | nil => simp
  | cons z zs ih =>
    simp only [List.foldl_cons]
    obtain ⟨hzmem, hznd2⟩ := List.nodup_cons.mp hznd
    have hzz := hzs z (List.mem_cons_self z zs)
    have hzs2 : ∀ a ∈ zs, 0 ≤ a ∧ a < (c.resolution : ℤ) :=
      fun a ha => hzs a (List.mem_cons_of_mem _ ha)
    obtain ⟨g1, g2, g3, g4⟩ := brushRow_shape c wx wz r s lo xs z acc
    rw [ih hznd2 hzs2 _ (g2.trans hres) (g4.trans hlen)]
    rw [brushRow_getHeight c wx wz r s lo xs hxnd hxs z hzz acc hres hlen x0 z0]
    by_cases h2 : z0 = z
    · have hz0mem : z0 ∉ zs := by rw [h2]; exact hzmem
      rw [if_neg (fun hcon => hz0mem hcon.1)]
      by_cases hrest : x0 ∈ xs ∧ c.gridDist wx wz x0 z0 ≤ c.gridRadius r
      · have ha : z0 = z ∧ x0 ∈ xs ∧ c.gridDist wx wz x0 z0 ≤ c.gridRadius r :=
          ⟨h2, hrest.1, hrest.2⟩
        have hb : z0 ∈ z :: zs ∧ x0 ∈ xs ∧ c.gridDist wx wz x0 z0 ≤ c.gridRadius r :=
          ⟨by rw [h2]; exact List.mem_cons_self z zs, hrest.1, hrest.2⟩
        rw [if_pos ha, if_pos hb]
      · rw [if_neg (fun hcon => hrest ⟨hcon.2.1, hcon.2.2⟩),
          if_neg (fun hcon => hrest ⟨hcon.2.1, hcon.2.2⟩)]
    · have hinner : ¬(z0 = z ∧ x0 ∈ xs ∧ c.gridDist wx wz x0 z0 ≤ c.gridRadius r) :=
        fun hcon => h2 hcon.1
      rw [if_neg hinner]
      have hiff : z0 ∈ z :: zs ↔ z0 ∈ zs := by
        rw [List.mem_cons]
        exact or_iff_right h2
      by_cases hc : z0 ∈ zs ∧ x0 ∈ xs ∧ c.gridDist wx wz x0 z0 ≤ c.gridRadius r
      · have hb : z0 ∈ z :: zs ∧ x0 ∈ xs ∧ c.gridDist wx wz x0 z0 ≤ c.gridRadius r :=
          ⟨hiff.mpr hc.1, hc.2⟩
        rw [if_pos hc, if_pos hb]
      · rw [if_neg hc, if_neg (fun hcon => hc ⟨hiff.mp hcon.1, hcon.2⟩)]

/-! ### Integer ranges -/

lemma mem_rangeInt {lo hi x : ℤ} : x ∈ rangeInt lo hi ↔ lo ≤ x ∧ x ≤ hi := by
  unfold rangeInt
  rw [List.mem_map]
  constructor
  · rintro ⟨i, hi2, hx⟩
    rw [List.mem_range] at hi2
    omega
  · rintro ⟨h1, h2⟩
    refine ⟨(x - lo).toNat, ?_, ?_⟩
    · rw [List.mem_range]
      omega
    · omega

lemma nodup_rangeInt (lo hi : ℤ) : (rangeInt lo hi).Nodup := by
  unfold rangeInt
  have hinj : Function.Injective (fun i : ℕ => lo + (i : ℤ)) := by
    intro a b hab
    simp only at hab
    omega
  exact List.Nodup.map hinj (List.nodup_range _)

/-! ### Pointwise characterization of `applyBrush` -/

lemma getHeight_setDirty (d : Chunk) (b : Bool) (x z : ℤ) :
    ({ d with terrainDirty := b } : Chunk).getHeight x z = d.getHeight x z := rfl

lemma applyBrush_getHeight (c : Chunk) (wx wz r s : ℝ) (lo : Bool) (hWF : c.WF)
    (x0 z0 : ℤ) :
    (c.applyBrush wx wz r s lo).getHeight x0 z0 =
      if c.brushMinX wx r ≤ x0 ∧ x0 ≤ c.brushMaxX wx r ∧
         c.brushMinZ wz r ≤ z0 ∧ z0 ≤ c.brushMaxZ wz r ∧
         c.gridDist wx wz x0 z0 ≤ c.gridRadius r then
        c.getHeight x0 z0 +
          s * (1 - c.gridDist wx wz x0 z0 / c.gridRadius r) * (if lo then -1 else 1)
      else c.getHeight x0 z0 := by
  unfold Chunk.WF at hWF
  unfold Chunk.applyBrush
  simp only
  rw [getHeight_setDirty]
  rw [brushFold_getHeight c wx wz r s lo _ (nodup_rangeInt _ _)
      (fun a ha => by
        rw [mem_rangeInt] at ha
        constructor
        · exact le_trans (le_max_left 0 _) ha.1
        · have h1 : c.brushMaxZ wz r ≤ (c.resolution : ℤ) - 1 := min_le_left _ _
          omega)
      _ (nodup_rangeInt _ _)
      (fun a ha => by
        rw [mem_rangeInt] at ha
        constructor
        · exact le_trans (le_max_left 0 _) ha.1
        · have h1 : c.brushMaxX wx r ≤ (c.resolution : ℤ) - 1 := min_le_left _ _
          omega)
      c rfl hWF x0 z0]
  simp only [mem_rangeInt]
  exact if_congr (by tauto) rfl rfl

lemma applyBrush_shape (c : Chunk) (wx wz r s : ℝ) (lo : Bool) :
    (c.applyBrush wx wz r s lo).terrainDirty = true ∧
    (c.applyBrush wx wz r s lo).size = c.size ∧
    (c.applyBrush wx wz r s lo).resolution = c.resolution ∧
    (c.applyBrush wx wz r s lo).objects = c.objects := by
  obtain ⟨h1, h2, h3, h4⟩ := brushFold_shape c wx wz r s lo
    (rangeInt (c.brushMinZ wz r) (c.brushMaxZ wz r))
    (rangeInt (c.brushMinX wx r) (c.brushMaxX wx r)) c
  exact ⟨rfl, h1, h2, h3⟩

lemma applyBrush_length (c : Chunk) (wx wz r s : ℝ) (lo : Bool) :
    (c.applyBrush wx wz r s lo).heights.length = c.heights.length := by
  exact (brushFold_shape c wx wz r s lo
    (rangeInt (c.brushMinZ wz r) (c.brushMaxZ wz r))
    (rangeInt (c.brushMinX wx r) (c.brushMaxX wx r)) c).2.2.2

/-! ### Concrete evaluations on the default 64-unit, 65-sample chunk -/

lemma getHeight_new (size : ℝ) (res : ℕ) (x z : ℤ) :
    (Chunk.new size res).getHeight x z = 0 := by
  unfold Chunk.new Chunk.getHeight
  split
  · rfl
  · rw [List.getD_eq_getElem?_getD, List.getElem?_replicate]
    split <;> rfl

lemma defaultChunk_WF : Chunk.defaultChunk.WF := by
  unfold Chunk.defaultChunk Chunk.new Chunk.WF
  exact List.length_replicate (65 * 65) 0

lemma defaultChunk_gridCoord : Chunk.defaultChunk.gridCoord 32 = 32 := by
  unfold Chunk.defaultChunk Chunk.new Chunk.gridCoord
  norm_num

lemma defaultChunk_gridRadius5 : Chunk.defaultChunk.gridRadius 5 = 5 := by
  unfold Chunk.defaultChunk Chunk.new Chunk.gridRadius
  norm_num

lemma defaultChunk_gridRadius0 : Chunk.defaultChunk.gridRadius 0 = 0 := by
  unfold Chunk.defaultChunk Chunk.new Chunk.gridRadius
  norm_num

lemma defaultChunk_gridDist_center : Chunk.defaultChunk.gridDist 32 32 32 32 = 0 := by
  unfold Chunk.gridDist
  rw [defaultChunk_gridCoord]
  push_cast
  norm_num

lemma defaultChunk_gridDist_32_45 : Chunk.defaultChunk.gridDist 32 32 32 45 = 13 := by
  unfold Chunk.gridDist
  rw [defaultChunk_gridCoord]
  push_cast
  rw [show ((32:ℝ) - 32) * ((32:ℝ) - 32) + ((45:ℝ) - 32) * ((45:ℝ) - 32) = 13 ^ 2 by norm_num]
  exact Real.sqrt_sq (by norm_num)

lemma defaultChunk_brushMinX5 : Chunk.defaultChunk.brushMinX 32 5 = 27 := by
  unfold Chunk.brushMinX
  rw [defaultChunk_gridCoord, defaultChunk_gridRadius5]
  norm_num

lemma defaultChunk_brushMaxX5 : Chunk.defaultChunk.brushMaxX 32 5 = 37 := by
  unfold Chunk.brushMaxX
  rw [defaultChunk_gridCoord, defaultChunk_gridRadius5]
  have hres : Chunk.defaultChunk.resolution = 65 := rfl
  rw [hres]
  norm_num

lemma defaultChunk_brushMinZ5 : Chunk.defaultChunk.brushMinZ 32 5 = 27 := by
  unfold Chunk.brushMinZ
  rw [defaultChunk_gridCoord, defaultChunk_gridRadius5]
  norm_num

lemma defaultChunk_brushMaxZ5 : Chunk.defaultChunk.brushMaxZ 32 5 = 37 := by
  unfold Chunk.brushMaxZ
  rw [defaultChunk_gridCoord, defaultChunk_gridRadius5]
  have hres : Chunk.defaultChunk.resolution = 65 := rfl
  rw [hres]
  norm_num

lemma defaultChunk_brushMinX0 : Chunk.defaultChunk.brushMinX 32 0 = 32 := by
  unfold Chunk.brushMinX
  rw [defaultChunk_gridCoord, defaultChunk_gridRadius0]
  norm_num

lemma defaultChunk_brushMaxX0 : Chunk.defaultChunk.brushMaxX 32 0 = 32 := by
  unfold Chunk.brushMaxX
  rw [defaultChunk_gridCoord, defaultChunk_gridRadius0]
  have hres : Chunk.defaultChunk.resolution = 65 := rfl
  rw [hres]
  norm_num

lemma defaultChunk_brushMinZ0 : Chunk.defaultChunk.brushMinZ 32 0 = 32 := by
  unfold Chunk.brushMinZ
  rw [defaultChunk_gridCoord, defaultChunk_gridRadius0]
  norm_num

lemma defaultChunk_brushMaxZ0 : Chunk.defaultChunk.brushMaxZ 32 0 = 32 := by
  unfold Chunk.brushMaxZ
  rw [defaultChunk_gridCoord, defaultChunk_gridRadius0]
  have hres : Chunk.defaultChunk.resolution = 65 := rfl
  rw [hres]
  norm_num

/-! ### Claim theorems about the brush -/

/-- C1: for a brush with positive grid radius, every cell of the clipped
bounding rectangle whose grid-space distance `d` to the brush center
satisfies `d ≤ gridRadius` gets exactly
`strength * (1 - d/gridRadius) * (lower ? -1 : +1)` added to its height;
when `strength > 0` and `d < gridRadius`, raising strictly increases and
lowering strictly decreases the cell; and on the flat default
64-unit/65-sample chunk, a raise brush at `(32,32)` with radius 5 and
strength 1 raises the center cell by exactly `strength * 1` (to height 1). -/
theorem applyBrush_falloff_spec :
    (∀ (c : Chunk) (wx wz r s : ℝ) (lo : Bool) (x0 z0 : ℤ), c.WF →
      0 < c.gridRadius r →
      c.brushMinX wx r ≤ x0 → x0 ≤ c.brushMaxX wx r →
      c.brushMinZ wz r ≤ z0 → z0 ≤ c.brushMaxZ wz r →
      c.gridDist wx wz x0 z0 ≤ c.gridRadius r →
      (c.applyBrush wx wz r s lo).getHeight x0 z0 =
        c.getHeight x0 z0 +
          s * (1 - c.gridDist wx wz x0 z0 / c.gridRadius r) * (if lo then -1 else 1)) ∧
    (∀ (c : Chunk) (wx wz r s : ℝ) (x0 z0 : ℤ), c.WF →
      0 < c.gridRadius r →
      c.brushMinX wx r ≤ x0 → x0 ≤ c.brushMaxX wx r →
      c.brushMinZ wz r ≤ z0 → z0 ≤ c.brushMaxZ wz r →
      0 < s → c.gridDist wx wz x0 z0 < c.gridRadius r →
      c.getHeight x0 z0 < (c.applyBrush wx wz r s false).getHeight x0 z0 ∧
      (c.applyBrush wx wz r s true).getHeight x0 z0 < c.getHeight x0 z0) ∧
    (Chunk.defaultChunk.applyBrush 32 32 5 1 false).getHeight 32 32 = 1 := by
  have key : ∀ (c : Chunk) (wx wz r s : ℝ) (lo : Bool) (x0 z0 : ℤ), c.WF →
      c.brushMinX wx r ≤ x0 → x0 ≤ c.brushMaxX wx r →
      c.brushMinZ wz r ≤ z0 → z0 ≤ c.brushMaxZ wz r →
      c.gridDist wx wz x0 z0 ≤ c.gridRadius r →
      (c.applyBrush wx wz r s lo).getHeight x0 z0 =
        c.getHeight x0 z0 +
          s * (1 - c.gridDist wx wz x0 z0 / c.gridRadius r) * (if lo then -1 else 1) := by
    intro c wx wz r s lo x0 z0 hWF h1 h2 h3 h4 hD
    rw [applyBrush_getHeight c wx wz r s lo hWF x0 z0, if_pos ⟨h1, h2, h3, h4, hD⟩]
  refine ⟨fun c wx wz r s lo x0 z0 hWF _ h1 h2 h3 h4 hD => key c wx wz r s lo x0 z0 hWF h1 h2 h3 h4 hD,
    ?_, ?_⟩
  · intro c wx wz r s x0 z0 hWF hgr h1 h2 h3 h4 hs hlt
    have hf : 0 < 1 - c.gridDist wx wz x0 z0 / c.gridRadius r := by
      rw [sub_pos]
      exact (div_lt_one hgr).mpr hlt
    have hpos : 0 < s * (1 - c.gridDist wx wz x0 z0 / c.gridRadius r) := mul_pos hs hf
    constructor
    · rw [key c wx wz r s false x0 z0 hWF h1 h2 h3 h4 hlt.le]
      norm_num
      linarith
    · rw [key c wx wz r s true x0 z0 hWF h1 h2 h3 h4 hlt.le]
      norm_num
      linarith
  · rw [key Chunk.defaultChunk 32 32 5 1 false 32 32 defaultChunk_WF
      (by rw [defaultChunk_brushMinX5]; norm_num)
      (by rw [defaultChunk_brushMaxX5]; norm_num)
      (by rw [defaultChunk_brushMinZ5]; norm_num)
      (by rw [defaultChunk_brushMaxZ5]; norm_num)
      (by rw [defaultChunk_gridDist_center, defaultChunk_gridRadius5]; norm_num)]
    rw [defaultChunk_gridDist_center, defaultChunk_gridRadius5,
      show Chunk.defaultChunk.getHeight 32 32 = 0 from getHeight_new 64 65 32 32]
    norm_num

/-- Witness for C1: the first conjunct applied to the concrete scenario
(default chunk, raise brush at `(32,32)`, radius 5, strength 1, center cell). -/
theorem applyBrush_falloff_spec_witness :
    Chunk.defaultChunk.WF ∧
    0 < Chunk.defaultChunk.gridRadius 5 ∧
    Chunk.defaultChunk.brushMinX 32 5 ≤ 32 ∧ (32 : ℤ) ≤ Chunk.defaultChunk.brushMaxX 32 5 ∧
    Chunk.defaultChunk.brushMinZ 32 5 ≤ 32 ∧ (32 : ℤ) ≤ Chunk.defaultChunk.brushMaxZ 32 5 ∧
    Chunk.defaultChunk.gridDist 32 32 32 32 ≤ Chunk.defaultChunk.gridRadius 5 ∧
    (Chunk.defaultChunk.applyBrush 32 32 5 1 false).getHeight 32 32 =
      Chunk.defaultChunk.getHeight 32 32 +
        1 * (1 - Chunk.defaultChunk.gridDist 32 32 32 32 / Chunk.defaultChunk.gridRadius 5) *
          (if false then -1 else 1) :=
  ⟨defaultChunk_WF,
   by rw [defaultChunk_gridRadius5]; norm_num,
   by rw [defaultChunk_brushMinX5]; norm_num,
   by rw [defaultChunk_brushMaxX5]; norm_num,
   by rw [defaultChunk_brushMinZ5]; norm_num,
   by rw [defaultChunk_brushMaxZ5]; norm_num,
   by rw [defaultChunk_gridDist_center, defaultChunk_gridRadius5]; norm_num,
   applyBrush_falloff_spec.1 Chunk.defaultChunk 32 32 5 1 false 32 32 defaultChunk_WF
     (by rw [defaultChunk_gridRadius5]; norm_num)
     (by rw [defaultChunk_brushMinX5]; norm_num)
     (by rw [defaultChunk_brushMaxX5]; norm_num)
     (by rw [defaultChunk_brushMinZ5]; norm_num)
     (by rw [defaultChunk_brushMaxZ5]; norm_num)
     (by rw [defaultChunk_gridDist_center, defaultChunk_gridRadius5]; norm_num)⟩

/-- C4: for a brush with positive radius, cells whose grid distance to the
center exceeds the grid radius keep exactly their prior height, and every
cell whose height changed lies within the grid radius. -/
theorem applyBrush_frame_spec :
    ∀ (c : Chunk) (wx wz r s : ℝ) (lo : Bool) (x0 z0 : ℤ), c.WF → 0 < r →
      (c.gridRadius r < c.gridDist wx wz x0 z0 →
        (c.applyBrush wx wz r s lo).getHeight x0 z0 = c.getHeight x0 z0) ∧
      ((c.applyBrush wx wz r s lo).getHeight x0 z0 ≠ c.getHeight x0 z0 →
        c.gridDist wx wz x0 z0 ≤ c.gridRadius r) := by
  intro c wx wz r s lo x0 z0 hWF _
  constructor
  · intro hout
    rw [applyBrush_getHeight c wx wz r s lo hWF x0 z0,
      if_neg (fun hcon => absurd hcon.2.2.2.2 (not_le.mpr hout))]
  · intro hchanged
    by_contra hout
    rw [not_le] at hout
    exact hchanged (by
      rw [applyBrush_getHeight c wx wz r s lo hWF x0 z0,
        if_neg (fun hcon => absurd hcon.2.2.2.2 (not_le.mpr hout))])

/-- Witness for C4: on the default chunk, the brush at `(32,32)` with
radius 5 leaves cell `(32,45)` (grid distance 13 > 5) unchanged. -/
theorem applyBrush_frame_spec_witness :
    Chunk.defaultChunk.WF ∧ (0 : ℝ) < 5 ∧
    Chunk.defaultChunk.gridRadius 5 < Chunk.defaultChunk.gridDist 32 32 32 45 ∧
    (Chunk.defaultChunk.applyBrush 32 32 5 1 false).getHeight 32 45 =
      Chunk.defaultChunk.getHeight 32 45 :=
  ⟨defaultChunk_WF, by norm_num,
   by rw [defaultChunk_gridRadius5, defaultChunk_gridDist_32_45]; norm_num,
   (applyBrush_frame_spec Chunk.defaultChunk 32 32 5 1 false 32 45 defaultChunk_WF
       (by norm_num)).1
     (by rw [defaultChunk_gridRadius5, defaultChunk_gridDist_32_45]; norm_num)⟩

/-- C2 (evaluation at the failing input): `applyBrush` at radius 0 with a
grid-aligned center does visit the center cell (its bounding rectangle is
the single cell and `dist = 0 ≤ gridRadius = 0`), so the mutation is not
invariant-preserving there.  In this real-number model `0/0 = 0`, so the
cell height becomes `0 + strength * (1 - 0/0) * 1 = 1`; in the JavaScript
source the same visit computes `falloff = 1 - 0/0 = NaN` and stores a
non-finite sample, violating the all-values-finite invariant. -/
theorem applyBrush_zero_radius_breaks_invariant :
    (Chunk.defaultChunk.applyBrush 32 32 0 1 false).getHeight 32 32 = 1 := by
  rw [applyBrush_getHeight Chunk.defaultChunk 32 32 0 1 false defaultChunk_WF 32 32,
    if_pos ⟨by rw [defaultChunk_brushMinX0], by rw [defaultChunk_brushMaxX0],
      by rw [defaultChunk_brushMinZ0], by rw [defaultChunk_brushMaxZ0],
      by rw [defaultChunk_gridDist_center, defaultChunk_gridRadius0]⟩]
  rw [defaultChunk_gridDist_center, defaultChunk_gridRadius0,
    show Chunk.defaultChunk.getHeight 32 32 = 0 from getHeight_new 64 65 32 32]
  norm_num

/-- C3 (evaluation at the failing input): with radius 0 — which is `≤ 0` —
the brush at a grid-aligned center does **not** leave every sample
unchanged: the center cell is visited and modified (to 1 in the
real-number model, to NaN in the JavaScript source), contradicting
"a zero or negative radius simply visits no cells". -/
theorem applyBrush_zero_radius_visits_cell :
    (Chunk.defaultChunk.applyBrush 32 32 0 1 false).getHeight 32 32 ≠
      Chunk.defaultChunk.getHeight 32 32 := by
  rw [applyBrush_getHeight Chunk.defaultChunk 32 32 0 1 false defaultChunk_WF 32 32,
    if_pos ⟨by rw [defaultChunk_brushMinX0], by rw [defaultChunk_brushMaxX0],
      by rw [defaultChunk_brushMinZ0], by rw [defaultChunk_brushMaxZ0],
      by rw [defaultChunk_gridDist_center, defaultChunk_gridRadius0]⟩]
  rw [defaultChunk_gridDist_center, defaultChunk_gridRadius0,
    show Chunk.defaultChunk.getHeight 32 32 = 0 from getHeight_new 64 65 32 32]
  norm_num

/-- C10: every `applyBrush` call sets `terrainDirty` unconditionally and
leaves `size`, `resolution` and the placed-object list unchanged. -/
theorem applyBrush_dirty_frame :
    ∀ (c : Chunk) (wx wz r s : ℝ) (lo : Bool),
      (c.applyBrush wx wz r s lo).terrainDirty = true ∧
      (c.applyBrush wx wz r s lo).size = c.size ∧
      (c.applyBrush wx wz r s lo).resolution = c.resolution ∧
      (c.applyBrush wx wz r s lo).objects = c.objects :=
  fun c wx wz r s lo => applyBrush_shape c wx wz r s lo

/-! ### Serialization round trip -/

/-- C9: serializing a chunk with `toJSON` and loading the record back with
`fromJSON` reproduces identical samples, size and resolution, whatever
chunk the record is loaded into. -/
theorem chunk_save_load_roundTrip :
    ∀ (c target : Chunk),
      (target.fromJSON c.toJSON).heights = c.heights ∧
      (target.fromJSON c.toJSON).size = c.size ∧
      (target.fromJSON c.toJSON).resolution = c.resolution :=
  fun _ _ => ⟨rfl, rfl, rfl⟩

/-! ### Interpolation at exact grid points -/

lemma getHeightAt_int_coord (c : Chunk) (wx wz : ℝ) (gx gz : ℤ)
    (hgx : c.gridCoord wx = (gx : ℝ)) (hgz : c.gridCoord wz = (gz : ℝ))
    (hx0 : 0 ≤ gx) (hx1 : gx ≤ (c.resolution : ℤ) - 1)
    (hz0 : 0 ≤ gz) (hz1 : gz ≤ (c.resolution : ℤ) - 1)
    (hres : 2 ≤ c.resolution) :
    c.getHeightAt wx wz = c.getHeight gx gz := by
  have hres2 : (2 : ℤ) ≤ (c.resolution : ℤ) := by exact_mod_cast hres
  simp only [Chunk.getHeightAt, hgx, hgz, Int.floor_intCast]
  by_cases hxe : gx ≤ (c.resolution : ℤ) - 2
  · have hcx : max 0 (min ((c.resolution : ℤ) - 2) gx) = gx := by
      rw [min_eq_right hxe, max_eq_right hx0]
    rw [hcx]
    by_cases hze : gz ≤ (c.resolution : ℤ) - 2
    · have hcz : max 0 (min ((c.resolution : ℤ) - 2) gz) = gz := by
        rw [min_eq_right hze, max_eq_right hz0]
      rw [hcz, sub_self]
      ring
    · have hgz1 : gz = (c.resolution : ℤ) - 1 := by omega
      have hcz : max 0 (min ((c.resolution : ℤ) - 2) gz) = (c.resolution : ℤ) - 2 := by
        rw [min_eq_left (by omega), max_eq_right (by omega)]
      rw [hcz, sub_self, hgz1]
      have hfz : ((c.resolution : ℤ) - 1 : ℤ) - (((c.resolution : ℤ) - 2 : ℤ) : ℝ) = 1 := by
        push_cast
        ring
      rw [show ((c.resolution : ℤ) - 2 : ℤ) + 1 = (c.resolution : ℤ) - 1 by ring]
      push_cast
      ring
  · have hgx1 : gx = (c.resolution : ℤ) - 1 := by omega
    have hcx : max 0 (min ((c.resolution : ℤ) - 2) gx) = (c.resolution : ℤ) - 2 := by
      rw [min_eq_left (by omega), max_eq_right (by omega)]
    rw [hcx, hgx1]
    rw [show ((c.resolution : ℤ) - 2 : ℤ) + 1 = (c.resolution : ℤ) - 1 by ring]
    by_cases hze : gz ≤ (c.resolution : ℤ) - 2
    · have hcz : max 0 (min ((c.resolution : ℤ) - 2) gz) = gz := by
        rw [min_eq_right hze, max_eq_right hz0]
      rw [hcz, sub_self]
      push_cast
      ring
    · have hgz1 : gz = (c.resolution : ℤ) - 1 := by omega
      have hcz : max 0 (min ((c.resolution : ℤ) - 2) gz) = (c.resolution : ℤ) - 2 := by
        rw [min_eq_left (by omega), max_eq_right (by omega)]
      rw [hcz, hgz1]
      push_cast
      ring

/-- C5: evaluating `getHeightAt` at the world coordinates of an in-bounds
integer grid point `(x, z)` — `world = x * size / (resolution - 1)` —
returns exactly `getHeight x z`: the bilinear interpolation collapses to a
direct lookup, including on the last row/column where the integer cell is
clamped to `resolution - 2` and the fractional part becomes 1. -/
theorem getHeightAt_grid_point :
    ∀ (c : Chunk) (x z : ℕ), 0 < c.size → 2 ≤ c.resolution →
      x < c.resolution → z < c.resolution →
      c.getHeightAt ((x : ℝ) * c.size / ((c.resolution : ℝ) - 1))
        ((z : ℝ) * c.size / ((c.resolution : ℝ) - 1)) = c.getHeight x z := by
  intro c x z hsize hres hx hz
  have hden : ((c.resolution : ℝ) - 1) ≠ 0 := by
    have h2 : (2 : ℝ) ≤ (c.resolution : ℝ) := by exact_mod_cast hres
    linarith
  have hgc : ∀ (n : ℕ), c.gridCoord ((n : ℝ) * c.size / ((c.resolution : ℝ) - 1)) =
      ((n : ℤ) : ℝ) := by
    intro n
    unfold Chunk.gridCoord
    push_cast
    field_simp
    ring
  exact getHeightAt_int_coord c _ _ (x : ℤ) (z : ℤ) (hgc x) (hgc z)
    (by positivity) (by omega) (by positivity) (by omega) hres

/-- Witness for C5: a 2×2 chunk with samples `[1, 2, 3, 4]`; the world
coordinates of grid point `(1, 0)` interpolate to exactly sample 2. -/
theorem getHeightAt_grid_point_witness :
    (0 : ℝ) < (⟨2, 2, [1, 2, 3, 4], [], false⟩ : Chunk).size ∧
    2 ≤ (⟨2, 2, [1, 2, 3, 4], [], false⟩ : Chunk).resolution ∧
    1 < (⟨2, 2, [1, 2, 3, 4], [], false⟩ : Chunk).resolution ∧
    0 < (⟨2, 2, [1, 2, 3, 4], [], false⟩ : Chunk).resolution ∧
    (⟨2, 2, [1, 2, 3, 4], [], false⟩ : Chunk).getHeightAt
        (((1 : ℕ) : ℝ) * (⟨2, 2, [1, 2, 3, 4], [], false⟩ : Chunk).size /
          (((⟨2, 2, [1, 2, 3, 4], [], false⟩ : Chunk).resolution : ℝ) - 1))
        (((0 : ℕ) : ℝ) * (⟨2, 2, [1, 2, 3, 4], [], false⟩ : Chunk).size /
          (((⟨2, 2, [1, 2, 3, 4], [], false⟩ : Chunk).resolution : ℝ) - 1)) =
      (⟨2, 2, [1, 2, 3, 4], [], false⟩ : Chunk).getHeight ((1 : ℕ) : ℤ) ((0 : ℕ) : ℤ) :=
  ⟨by norm_num, by norm_num, by norm_num, by norm_num,
   getHeightAt_grid_point (⟨2, 2, [1, 2, 3, 4], [], false⟩ : Chunk) 1 0
     (by norm_num) (by norm_num) (by norm_num) (by norm_num)⟩

/-! ### The ray-marching picker -/

lemma range_findSome?_first {α : Type} (f : ℕ → Option α) (n k : ℕ) (b : α)
    (hk : k < n) (hfirst : ∀ j, j < k → f j = none) (hhit : f k = some b) :
    (List.range n).findSome? f = some b := by
  induction n with
  | zero => omega
  | succ n ih =>
    rw [List.range_succ, List.findSome?_append]
    by_cases hkn : k < n
    · rw [ih hkn]
      rfl
    · have hkn2 : k = n := by omega
      have hnone : (List.range n).findSome? f = none := by
        rw [List.findSome?_eq_none_iff]
        intro a ha
        rw [List.mem_range] at ha
        exact hfirst a (by omega)
      rw [hnone]
      subst hkn2
      simp [List.findSome?_cons, hhit]

lemma getHeightAt_new (size : ℝ) (res : ℕ) (wx wz : ℝ) :
    (Chunk.new size res).getHeightAt wx wz = 0 := by
  simp only [Chunk.getHeightAt, getHeight_new]
  ring

/-- Every march step of a horizontal ray from `(-10, 5, -10)` along `+x`
over the default chunk misses: its z coordinate stays at −10, outside
`[0, 64]`. -/
lemma marchStep_outside (k : ℕ) :
    marchStep Chunk.defaultChunk ⟨-10, 5, -10⟩ ⟨1, 0, 0⟩ k = none := by
  simp only [marchStep, Chunk.defaultChunk, getHeightAt_new]
  rw [if_neg]
  intro hcon
  have h3 := hcon.2.2.1
  norm_num at h3

/-- C7: the picker marches `t = 0, 0.5, …, 199.5`; if no step hits, the
result is the ray/plane fallback at height 0; the first hitting step is
returned as-is; the fallback is `none` exactly when the ray is
near-parallel to the plane or the plane parameter is negative; a ray
straight down from `(32, 10, 32)` over the flat default chunk returns
`(32, 0, 32)`; and a horizontal ray from `(-10, 5, -10)` outside the grid
over flat terrain returns `none`. -/
theorem findTerrainIntersection_spec :
    (∀ (c : Chunk) (o d : Vec3),
      (∀ k, k < 400 → marchStep c o d k = none) →
      findTerrainIntersection c o d = rayPlaneIntersection o d 0) ∧
    (∀ (c : Chunk) (o d : Vec3) (k : ℕ) (p : Vec3), k < 400 →
      (∀ j, j < k → marchStep c o d j = none) → marchStep c o d k = some p →
      findTerrainIntersection c o d = some p) ∧
    (∀ (o d : Vec3), rayPlaneIntersection o d 0 = none ↔
      |d.y| < 0.0001 ∨ (0 - o.y) / d.y < 0) ∧
    findTerrainIntersection Chunk.defaultChunk ⟨32, 10, 32⟩ ⟨0, -1, 0⟩ = some ⟨32, 0, 32⟩ ∧
    findTerrainIntersection Chunk.defaultChunk ⟨-10, 5, -10⟩ ⟨1, 0, 0⟩ = none := by
  have ha : ∀ (c : Chunk) (o d : Vec3),
      (∀ k, k < 400 → marchStep c o d k = none) →
      findTerrainIntersection c o d = rayPlaneIntersection o d 0 := by
    intro c o d hall
    unfold findTerrainIntersection
    have h : (List.range 400).findSome? (marchStep c o d) = none := by
      rw [List.findSome?_eq_none_iff]
      intro k hk
      rw [List.mem_range] at hk
      exact hall k hk
    rw [h]
  have hb : ∀ (c : Chunk) (o d : Vec3) (k : ℕ) (p : Vec3), k < 400 →
      (∀ j, j < k → marchStep c o d j = none) → marchStep c o d k = some p →
      findTerrainIntersection c o d = some p := by
    intro c o d k p hk hfirst hhit
    unfold findTerrainIntersection
    rw [range_findSome?_first (marchStep c o d) 400 k p hk hfirst hhit]
  refine ⟨ha, hb, ?_, ?_, ?_⟩
  · intro o d
    unfold rayPlaneIntersection
    by_cases h1 : |d.y| < 0.0001
    · rw [if_pos h1]
      simp only [eq_self_iff_true, true_iff]
      exact Or.inl h1
    · rw [if_neg h1]
      by_cases h2 : (0 - o.y) / d.y < 0
      · rw [if_pos h2]
        simp only [eq_self_iff_true, true_iff]
        exact Or.inr h2
      · rw [if_neg h2]
        constructor
        · intro hcon
          exact absurd hcon (by simp)
        · intro hcon
          rcases hcon with hcon | hcon
          · exact absurd hcon h1
          · exact absurd hcon h2
  · have hnone : ∀ j, j < 20 →
        marchStep Chunk.defaultChunk ⟨32, 10, 32⟩ ⟨0, -1, 0⟩ j = none := by
      intro j hj
      have hjr : (j : ℝ) ≤ 19 := by
        have : j ≤ 19 := by omega
        exact_mod_cast this
      simp only [marchStep, Chunk.defaultChunk, getHeightAt_new]
      rw [if_pos (by norm_num [Chunk.new]), if_neg (by norm_num; linarith)]
    have hhit : marchStep Chunk.defaultChunk ⟨32, 10, 32⟩ ⟨0, -1, 0⟩ 20 =
        some ⟨32, 0, 32⟩ := by
      simp only [marchStep, Chunk.defaultChunk, getHeightAt_new]
      rw [if_pos (by norm_num [Chunk.new]), if_pos (by norm_num)]
      norm_num [Vec3.mk.injEq]
    exact hb _ _ _ 20 _ (by norm_num) hnone hhit
  · rw [ha _ _ _ (fun k _ => marchStep_outside k)]
    simp only [rayPlaneIntersection]
    norm_num

/-- Witness for C7: the no-hit fallback conjunct applied to the horizontal
ray from `(-10, 5, -10)` over the default chunk. -/
theorem findTerrainIntersection_spec_witness :
    (∀ k, k < 400 → marchStep Chunk.defaultChunk ⟨-10, 5, -10⟩ ⟨1, 0, 0⟩ k = none) ∧
    findTerrainIntersection Chunk.defaultChunk ⟨-10, 5, -10⟩ ⟨1, 0, 0⟩ =
      rayPlaneIntersection ⟨-10, 5, -10⟩ ⟨1, 0, 0⟩ 0 :=
  ⟨fun k _ => marchStep_outside k,
   findTerrainIntersection_spec.1 Chunk.defaultChunk ⟨-10, 5, -10⟩ ⟨1, 0, 0⟩
     (fun k _ => marchStep_outside k)⟩

/-! ### The shadow factor -/

lemma foldl_add_indicator {α : Type} (l : List α) (g : α → ℝ)
    (hg : ∀ o ∈ l, g o = 0 ∨ g o = 1) (a : ℝ) :
    ∃ m : ℕ, m ≤ l.length ∧ l.foldl (fun s o => s + g o) a = a + m := by
  induction l generalizing a with
  | nil => exact ⟨0, by simp, by simp⟩
  | cons o l ih =>
    obtain ⟨m, hm, heq⟩ := ih (fun p hp => hg p (List.mem_cons_of_mem _ hp)) (a + g o)
    rcases hg o (List.mem_cons_self o l) with h | h
    · refine ⟨m, by simp only [List.length_cons]; omega, ?_⟩
      rw [List.foldl_cons, heq, h]
      ring
    · refine ⟨m + 1, by simp only [List.length_cons]; omega, ?_⟩
      rw [List.foldl_cons, heq, h]
      push_cast
      ring

lemma foldl_add_all_one {α : Type} (l : List α) (g : α → ℝ)
    (hg : ∀ o ∈ l, g o = 1) (a : ℝ) :
    l.foldl (fun s o => s + g o) a = a + l.length := by
  induction l generalizing a with
  | nil => simp
  | cons o l ih =>
    rw [List.foldl_cons, ih (fun p hp => hg p (List.mem_cons_of_mem _ hp)),
      hg o (List.mem_cons_self o l)]
    simp only [List.length_cons]
    push_cast
    ring

/-- C8: with depth-texture samples in `[0, 1]`, a fragment whose remapped
light-space coordinate leaves the unit cube on any axis gets shadow factor
1 (this includes `z < 0`, which skips the guard but fails every biased
comparison); the factor always lies in `[0, 1]`; and inside the cube the
factor is the average `m / 9` of the nine pass/fail PCF comparisons. -/
theorem calculateShadow_spec :
    ∀ (lsp : Vec4) (nrm lightDir : Vec3) (sm : ℝ → ℝ → ℝ) (tx ty : ℝ),
      (∀ u v, 0 ≤ sm u v ∧ sm u v ≤ 1) →
      ((projX lsp < 0 ∨ 1 < projX lsp ∨ projY lsp < 0 ∨ 1 < projY lsp ∨
          projZ lsp < 0 ∨ 1 < projZ lsp) →
        calculateShadow lsp nrm lightDir sm tx ty = 1) ∧
      (0 ≤ calculateShadow lsp nrm lightDir sm tx ty ∧
        calculateShadow lsp nrm lightDir sm tx ty ≤ 1) ∧
      ((0 ≤ projX lsp ∧ projX lsp ≤ 1 ∧ 0 ≤ projY lsp ∧ projY lsp ≤ 1 ∧
          0 ≤ projZ lsp ∧ projZ lsp ≤ 1) →
        ∃ m : ℕ, m ≤ 9 ∧ calculateShadow lsp nrm lightDir sm tx ty = (m : ℝ) / 9) := by
  intro lsp nrm lightDir sm tx ty hsm
  by_cases hguard : 1 < projZ lsp ∨ projX lsp < 0 ∨ 1 < projX lsp ∨
      projY lsp < 0 ∨ 1 < projY lsp
  · have hone : calculateShadow lsp nrm lightDir sm tx ty = 1 := by
      simp only [calculateShadow]
      rw [if_pos hguard]
    refine ⟨fun _ => hone, by rw [hone]; norm_num, ?_⟩
    intro hin
    exfalso
    obtain ⟨hx0, hx1, hy0, hy1, hz0, hz1⟩ := hin
    rcases hguard with h | h | h | h | h <;> linarith
  · push_neg at hguard
    obtain ⟨hz1, hx0, hx1, hy0, hy1⟩ := hguard
    have hcs : calculateShadow lsp nrm lightDir sm tx ty =
        (pcfOffsets.foldl (fun s o => s +
          (if sm (projX lsp + o.1 * tx) (projY lsp + o.2 * ty) <
              projZ lsp - max (0.002 * (1 - max (dot3 (glslNormalize nrm) lightDir) 0)) 0.001
            then 0 else 1)) 0) / 9 := by
      simp only [calculateShadow]
      rw [if_neg (by push_neg; exact ⟨hz1, hx0, hx1, hy0, hy1⟩)]
    obtain ⟨m, hm, hfold⟩ := foldl_add_indicator pcfOffsets
      (fun o => if sm (projX lsp + o.1 * tx) (projY lsp + o.2 * ty) <
          projZ lsp - max (0.002 * (1 - max (dot3 (glslNormalize nrm) lightDir) 0)) 0.001
        then 0 else 1)
      (fun o _ => by dsimp only; split <;> [exact Or.inl rfl; exact Or.inr rfl]) 0
    have hm9 : m ≤ 9 := by
      simpa [pcfOffsets] using hm
    have hval : calculateShadow lsp nrm lightDir sm tx ty = (m : ℝ) / 9 := by
      rw [hcs, hfold]
      ring
    refine ⟨?_, ?_, fun _ => ⟨m, hm9, hval⟩⟩
    · intro hout
      have hzneg : projZ lsp < 0 := by
        rcases hout with h | h | h | h | h | h
        · exact absurd h (not_lt.mpr hx0)
        · exact absurd h (not_lt.mpr hx1)
        · exact absurd h (not_lt.mpr hy0)
        · exact absurd h (not_lt.mpr hy1)
        · exact h
        · exact absurd h (not_lt.mpr hz1)
      have hbias : (0.001 : ℝ) ≤
          max (0.002 * (1 - max (dot3 (glslNormalize nrm) lightDir) 0)) 0.001 :=
        le_max_right _ _
      rw [hcs, foldl_add_all_one pcfOffsets _
        (fun o _ => by
          rw [if_neg]
          push_neg
          have hs := (hsm (projX lsp + o.1 * tx) (projY lsp + o.2 * ty)).1
          linarith)]
      simp [pcfOffsets]
    · constructor
      · rw [hval]
        positivity
      · rw [hval]
        rw [div_le_one (by norm_num)]
        exact_mod_cast hm9

/-! ### Mesh generation -/

lemma flatMap_length_const {α : Type} (n m : ℕ) (f : ℕ → List α)
    (hf : ∀ i, (f i).length = m) :
    ((List.range n).flatMap f).length = n * m := by
  induction n with
  | zero => simp
  | succ n ih =>
    rw [List.range_succ, List.flatMap_append, List.length_append, ih]
    simp only [List.flatMap_cons, List.flatMap_nil, List.append_nil, hf]
    ring

lemma flatMap_getD_grid {α : Type} (n m : ℕ) (f : ℕ → List α)
    (hf : ∀ i, (f i).length = m) (z x : ℕ) (hz : z < n) (hx : x < m) (d : α) :
    ((List.range n).flatMap f).getD (z * m + x) d = (f z).getD x d := by
  induction n with
  | zero => omega
  | succ n ih =>
    have hlen1 : ((List.range n).flatMap f).length = n * m := flatMap_length_const n m f hf
    rw [List.range_succ, List.flatMap_append]
    by_cases hzn : z < n
    · rw [List.getD_eq_getElem?_getD, List.getElem?_append,
        if_pos (by rw [hlen1]; nlinarith), ← List.getD_eq_getElem?_getD]
      exact ih hzn
    · have hzn2 : z = n := by omega
      subst hzn2
      rw [List.getD_eq_getElem?_getD, List.getElem?_append,
        if_neg (by rw [hlen1]; omega), hlen1]
      have hidx : z * m + x - z * m = x := by omega
      rw [hidx]
      simp [List.getD_eq_getElem?_getD]

lemma range_map_getD {α : Type} (n x : ℕ) (g : ℕ → α) (hx : x < n) (d : α) :
    ((List.range n).map g).getD x d = g x := by
  rw [List.getD_eq_getElem?_getD, List.getElem?_map, List.getElem?_range hx]
  rfl

lemma terrainVertices_length (c : Chunk) :
    (terrainVertices c).length = c.resolution * c.resolution := by
  unfold terrainVertices
  exact flatMap_length_const _ _ _
    (fun i => by rw [List.length_map, List.length_range])

lemma terrainVertices_getD (c : Chunk) (x z : ℕ)
    (hx : x < c.resolution) (hz : z < c.resolution) (d : Vec3) :
    (terrainVertices c).getD (z * c.resolution + x) d =
      ⟨((x : ℝ) / ((c.resolution : ℝ) - 1)) * c.size,
       c.heights.getD (z * c.resolution + x) 0,
       ((z : ℝ) / ((c.resolution : ℝ) - 1)) * c.size⟩ := by
  unfold terrainVertices
  rw [flatMap_getD_grid _ _ _
    (fun i => by rw [List.length_map, List.length_range]) z x hz hx]
  rw [range_map_getD _ _ _ hx]

lemma terrainTriangles_length (c : Chunk) :
    (terrainTriangles c).length = 2 * ((c.resolution - 1) * (c.resolution - 1)) := by
  unfold terrainTriangles
  rw [flatMap_length_const _ ((c.resolution - 1) * 2) _ ?hinner]
  · ring
  case hinner =>
    intro i
    rw [flatMap_length_const _ 2 _ ?hinner2]
    case hinner2 =>
      intro j
      rfl

lemma terrainTriangles_mem (c : Chunk) (t : ℕ × ℕ × ℕ) :
    t ∈ terrainTriangles c ↔
      ∃ x z, x < c.resolution - 1 ∧ z < c.resolution - 1 ∧
        (t = (z * c.resolution + x, (z + 1) * c.resolution + x, z * c.resolution + x + 1) ∨
         t = (z * c.resolution + x + 1, (z + 1) * c.resolution + x,
              (z + 1) * c.resolution + x + 1)) := by
  unfold terrainTriangles
  simp only [List.mem_flatMap, List.mem_range, List.mem_cons, List.mem_singleton,
    List.not_mem_nil, or_false]
  constructor
  · rintro ⟨z, hz, x, hx, h⟩
    exact ⟨x, z, hx, hz, h⟩
  · rintro ⟨x, z, hx, hz, h⟩
    exact ⟨z, hz, x, hx, h⟩

lemma normalize_vertical (D : ℝ) (hD : 0 < D) :
    Vec3.normalize ⟨0, D, 0⟩ = ⟨0, 1, 0⟩ := by
  unfold Vec3.normalize
  simp only
  rw [show (0 : ℝ) * 0 + D * D + 0 * 0 = D ^ 2 by ring]
  rw [if_pos (by positivity), Real.sqrt_sq hD.le]
  simp only [Vec3.mk.injEq]
  refine ⟨by ring, ?_, by ring⟩
  field_simp

lemma flat_tri_normal (a1 a2 b1 b2 c1 c2 : ℝ)
    (hD : 0 < (b2 - a2) * (c1 - a1) - (b1 - a1) * (c2 - a2)) :
    Vec3.normalize (Vec3.cross (Vec3.sub ⟨b1, 0, b2⟩ ⟨a1, 0, a2⟩)
      (Vec3.sub ⟨c1, 0, c2⟩ ⟨a1, 0, a2⟩)) = ⟨0, 1, 0⟩ := by
  have hcross : Vec3.cross (Vec3.sub ⟨b1, 0, b2⟩ ⟨a1, 0, a2⟩)
      (Vec3.sub ⟨c1, 0, c2⟩ ⟨a1, 0, a2⟩) =
      ⟨0, (b2 - a2) * (c1 - a1) - (b1 - a1) * (c2 - a2), 0⟩ := by
    unfold Vec3.sub Vec3.cross
    simp only [Vec3.mk.injEq]
    refine ⟨by ring, by ring, by ring⟩
  rw [hcross]
  exact normalize_vertical _ hD

lemma getD_replicate_zero (k i : ℕ) : (List.replicate k (0 : ℝ)).getD i 0 = 0 := by
  rw [List.getD_eq_getElem?_getD, List.getElem?_replicate]
  split <;> rfl

lemma triNormal_flat (c : Chunk) (hres : 2 ≤ c.resolution) (hsize : 0 < c.size)
    (hflat : c.heights = List.replicate (c.resolution * c.resolution) 0)
    (t : ℕ × ℕ × ℕ) (ht : t ∈ terrainTriangles c) :
    triNormal c t = ⟨0, 1, 0⟩ := by
  obtain ⟨x, z, hx, hz, hcase⟩ := (terrainTriangles_mem c t).mp ht
  have hxr : x < c.resolution := by omega
  have hx1r : x + 1 < c.resolution := by omega
  have hzr : z < c.resolution := by omega
  have hz1r : z + 1 < c.resolution := by omega
  have hh : ∀ i : ℕ, c.heights.getD i 0 = 0 := by
    intro i
    rw [hflat]
    exact getD_replicate_zero _ i
  have hvert : ∀ (a b : ℕ), a < c.resolution → b < c.resolution →
      (terrainVertices c).getD (b * c.resolution + a) ⟨0, 0, 0⟩ =
        ⟨((a : ℝ) / ((c.resolution : ℝ) - 1)) * c.size, 0,
         ((b : ℝ) / ((c.resolution : ℝ) - 1)) * c.size⟩ := by
    intro a b ha hb
    rw [terrainVertices_getD c a b ha hb, hh]
  have hR1 : (0 : ℝ) < (c.resolution : ℝ) - 1 := by
    have h2 : (2 : ℝ) ≤ (c.resolution : ℝ) := by exact_mod_cast hres
    linarith
  have halpha : 0 < c.size / ((c.resolution : ℝ) - 1) := div_pos hsize hR1
  have hgen : ∀ u : ℝ, (u + 1) / ((c.resolution : ℝ) - 1) * c.size -
      u / ((c.resolution : ℝ) - 1) * c.size = c.size / ((c.resolution : ℝ) - 1) := by
    intro u
    field_simp
    ring
  have hgen2 : ∀ u : ℝ, u / ((c.resolution : ℝ) - 1) * c.size -
      (u + 1) / ((c.resolution : ℝ) - 1) * c.size =
      -(c.size / ((c.resolution : ℝ) - 1)) := by
    intro u
    field_simp
    ring
  rcases hcase with h | h <;> subst h
  · unfold triNormal
    simp only
    rw [hvert x z hxr hzr, hvert x (z + 1) hxr hz1r,
      show z * c.resolution + x + 1 = z * c.resolution + (x + 1) from Nat.add_assoc ..,
      hvert (x + 1) z hx1r hzr]
    apply flat_tri_normal
    push_cast
    rw [hgen (z : ℝ), hgen (x : ℝ), sub_self, sub_self]
    nlinarith [mul_pos halpha halpha]
  · unfold triNormal
    simp only
    rw [show z * c.resolution + x + 1 = z * c.resolution + (x + 1) from Nat.add_assoc ..,
      show (z + 1) * c.resolution + x + 1 = (z + 1) * c.resolution + (x + 1) from
        Nat.add_assoc ..,
      hvert (x + 1) z hx1r hzr, hvert x (z + 1) hxr hz1r,
      hvert (x + 1) (z + 1) hx1r hz1r]
    apply flat_tri_normal
    push_cast
    rw [hgen (z : ℝ), hgen2 (x : ℝ), sub_self]
    nlinarith [mul_pos halpha halpha]

lemma writeTri_length (acc : List Vec3) (t : ℕ × ℕ × ℕ) (n : Vec3) :
    (writeTri acc t n).length = acc.length := by
  unfold writeTri
  simp

lemma getD_writeTri (acc : List Vec3) (t : ℕ × ℕ × ℕ) (n : Vec3) (i : ℕ)
    (hi : i < acc.length) (d : Vec3) :
    (writeTri acc t n).getD i d =
      if i = t.1 ∨ i = t.2.1 ∨ i = t.2.2 then n else acc.getD i d := by
  unfold writeTri
  simp only [List.getD_eq_getElem?_getD, List.getElem?_set, List.length_set]
  by_cases h3 : t.2.2 = i
  · rw [if_pos h3, if_pos (h3 ▸ hi), if_pos (Or.inr (Or.inr h3.symm))]
    rfl
  · rw [if_neg h3]
    by_cases h2 : t.2.1 = i
    · rw [if_pos h2, if_pos (h2 ▸ hi), if_pos (Or.inr (Or.inl h2.symm))]
      rfl
    · rw [if_neg h2]
      by_cases h1 : t.1 = i
      · rw [if_pos h1, if_pos (h1 ▸ hi), if_pos (Or.inl h1.symm)]
        rfl
      · rw [if_neg h1, if_neg (by
          rintro (h | h | h)
          · exact h1 h.symm
          · exact h2 h.symm
          · exact h3 h.symm)]

lemma foldl_writeTri_length (c : Chunk) (ts : List (ℕ × ℕ × ℕ)) (init : List Vec3) :
    (ts.foldl (fun acc t => writeTri acc t (triNormal c t)) init).length = init.length := by
  induction ts generalizing init with
  | nil => rfl
  | cons t ts ih =>
    rw [List.foldl_cons, ih, writeTri_length]

lemma foldl_writeTri_getD (c : Chunk) (ts : List (ℕ × ℕ × ℕ)) (n₀ : Vec3)
    (hts : ∀ t ∈ ts, triNormal c t = n₀) (init : List Vec3) (i : ℕ)
    (hi : i < init.length) (d : Vec3) :
    (ts.foldl (fun acc t => writeTri acc t (triNormal c t)) init).getD i d =
      if ∃ t ∈ ts, i = t.1 ∨ i = t.2.1 ∨ i = t.2.2 then n₀ else init.getD i d := by
  induction ts generalizing init with
  | nil => simp
  | cons t ts ih =>
    rw [List.foldl_cons]
    rw [ih (fun p hp => hts p (List.mem_cons_of_mem _ hp)) _
      (by rw [writeTri_length]; exact hi)]
    rw [getD_writeTri init t _ i hi d, hts t (List.mem_cons_self t ts)]
    by_cases hrest : ∃ p ∈ ts, i = p.1 ∨ i = p.2.1 ∨ i = p.2.2
    · obtain ⟨p, hp, hor⟩ := hrest
      rw [if_pos ⟨p, hp, hor⟩, if_pos ⟨p, List.mem_cons_of_mem _ hp, hor⟩]
    · rw [if_neg hrest]
      by_cases hhead : i = t.1 ∨ i = t.2.1 ∨ i = t.2.2
      · rw [if_pos hhead, if_pos ⟨t, List.mem_cons_self t ts, hhead⟩]
      · rw [if_neg hhead, if_neg (by
          rintro ⟨p, hp, hor⟩
          rcases List.mem_cons.mp hp with hp | hp
          · exact hhead (hp ▸ hor)
          · exact hrest ⟨p, hp, hor⟩)]

lemma terrainNormals_length (c : Chunk) :
    (terrainNormals c).length = c.resolution * c.resolution := by
  unfold terrainNormals
  rw [foldl_writeTri_length, List.length_replicate, terrainVertices_length]

/-- Every row-major vertex index of the grid belongs to at least one
triangle of the index list (needs `resolution ≥ 2`). -/
lemma vertex_covered (c : Chunk) (hres : 2 ≤ c.resolution) (x z : ℕ)
    (hx : x < c.resolution) (hz : z < c.resolution) :
    ∃ t ∈ terrainTriangles c,
      z * c.resolution + x = t.1 ∨ z * c.resolution + x = t.2.1 ∨
      z * c.resolution + x = t.2.2 := by
  by_cases hxlt : x < c.resolution - 1
  · by_cases hzlt : z < c.resolution - 1
    · refine ⟨(z * c.resolution + x, (z + 1) * c.resolution + x,
        z * c.resolution + x + 1), ?_, Or.inl rfl⟩
      rw [terrainTriangles_mem]
      exact ⟨x, z, hxlt, hzlt, Or.inl rfl⟩
    · have hzeq : z = c.resolution - 1 := by omega
      refine ⟨((c.resolution - 2) * c.resolution + x,
        (c.resolution - 2 + 1) * c.resolution + x,
        (c.resolution - 2) * c.resolution + x + 1), ?_, Or.inr (Or.inl ?_)⟩
      · rw [terrainTriangles_mem]
        exact ⟨x, c.resolution - 2, hxlt, by omega, Or.inl rfl⟩
      · have h1 : c.resolution - 2 + 1 = z := by omega
        rw [h1]
  · have hxeq : x = c.resolution - 1 := by omega
    by_cases hzlt : z < c.resolution - 1
    · refine ⟨(z * c.resolution + (c.resolution - 2),
        (z + 1) * c.resolution + (c.resolution - 2),
        z * c.resolution + (c.resolution - 2) + 1), ?_, Or.inr (Or.inr ?_)⟩
      · rw [terrainTriangles_mem]
        exact ⟨c.resolution - 2, z, by omega, hzlt, Or.inl rfl⟩
      · have h1 : c.resolution - 2 + 1 = x := by omega
        rw [Nat.add_assoc, h1]
    · have hzeq : z = c.resolution - 1 := by omega
      refine ⟨(((c.resolution - 2) * c.resolution + (c.resolution - 2) + 1,
        (c.resolution - 2 + 1) * c.resolution + (c.resolution - 2),
        (c.resolution - 2 + 1) * c.resolution + (c.resolution - 2) + 1)),
        ?_, Or.inr (Or.inr ?_)⟩
      · rw [terrainTriangles_mem]
        exact ⟨c.resolution - 2, c.resolution - 2, by omega, by omega, Or.inr rfl⟩
      · have h1 : c.resolution - 2 + 1 = z := by omega
        have h2 : c.resolution - 2 + 1 = x := by omega
        show z * c.resolution + x =
          (c.resolution - 2 + 1) * c.resolution + (c.resolution - 2) + 1
        rw [h1, Nat.add_assoc, h2]

/-- C6: mesh generation emits exactly `resolution²` vertex positions with
vertex `(x, z)` at world `((x/(resolution-1)) * size, sample, (z/(resolution-1)) * size)`,
exactly `2 * (resolution-1)²` triangles, and on the all-zero height field
every stored per-vertex normal equals the up vector `(0, 1, 0)`. -/
theorem generateMesh_spec :
    (∀ c : Chunk, 2 ≤ c.resolution →
      (terrainVertices c).length = c.resolution * c.resolution) ∧
    (∀ c : Chunk, 2 ≤ c.resolution →
      (terrainTriangles c).length = 2 * ((c.resolution - 1) * (c.resolution - 1))) ∧
    (∀ (c : Chunk) (x z : ℕ), 2 ≤ c.resolution →
      x < c.resolution → z < c.resolution →
      (terrainVertices c).getD (z * c.resolution + x) ⟨0, 0, 0⟩ =
        ⟨((x : ℝ) / ((c.resolution : ℝ) - 1)) * c.size,
         c.heights.getD (z * c.resolution + x) 0,
         ((z : ℝ) / ((c.resolution : ℝ) - 1)) * c.size⟩) ∧
    (∀ c : Chunk, 2 ≤ c.resolution → 0 < c.size →
      c.heights = List.replicate (c.resolution * c.resolution) 0 →
      ∀ nv ∈ terrainNormals c, nv = (⟨0, 1, 0⟩ : Vec3)) := by
  refine ⟨fun c _ => terrainVertices_length c,
    fun c _ => terrainTriangles_length c,
    fun c x z _ hx hz => terrainVertices_getD c x z hx hz _, ?_⟩
  intro c hres hsize hflat nv hnv
  obtain ⟨i, hilen, higet⟩ := List.mem_iff_getElem.mp hnv
  have hilen2 : i < c.resolution * c.resolution := by
    rw [terrainNormals_length] at hilen
    exact hilen
  have higetD : (terrainNormals c).getD i ⟨0, 0, 0⟩ = nv := by
    rw [List.getD_eq_getElem?_getD, List.getElem?_eq_getElem hilen, higet]
    rfl
  have hcov : ∃ t ∈ terrainTriangles c,
      i = t.1 ∨ i = t.2.1 ∨ i = t.2.2 := by
    obtain ⟨x, z, hxr, hzr, hieq⟩ : ∃ x z, x < c.resolution ∧ z < c.resolution ∧
        i = z * c.resolution + x := by
      refine ⟨i % c.resolution, i / c.resolution, ?_, ?_, ?_⟩
      · exact Nat.mod_lt _ (by omega)
      · exact Nat.div_lt_of_lt_mul (by omega)
      · rw [Nat.mul_comm]
        exact (Nat.div_add_mod i c.resolution).symm
    subst hieq
    exact vertex_covered c hres x z hxr hzr
  rw [← higetD]
  unfold terrainNormals
  rw [foldl_writeTri_getD c (terrainTriangles c) ⟨0, 1, 0⟩
    (fun t ht => triNormal_flat c hres hsize hflat t ht) _ i
    (by rw [List.length_replicate, terrainVertices_length]; exact hilen2) _]
  rw [if_pos hcov]

/-- Witness for C6: the 2×2 flat chunk `new Chunk(1, 2)` — 4 vertices, 2
triangles, all normals up. -/
theorem generateMesh_spec_witness :
    2 ≤ (Chunk.new 1 2).resolution ∧ (0 : ℝ) < (Chunk.new 1 2).size ∧
    (Chunk.new 1 2).heights =
      List.replicate ((Chunk.new 1 2).resolution * (Chunk.new 1 2).resolution) 0 ∧
    (terrainVertices (Chunk.new 1 2)).length =
      (Chunk.new 1 2).resolution * (Chunk.new 1 2).resolution ∧
    (∀ nv ∈ terrainNormals (Chunk.new 1 2), nv = (⟨0, 1, 0⟩ : Vec3)) :=
  ⟨by norm_num [Chunk.new], by norm_num [Chunk.new], rfl,
   generateMesh_spec.1 (Chunk.new 1 2) (by norm_num [Chunk.new]),
   generateMesh_spec.2.2.2 (Chunk.new 1 2) (by norm_num [Chunk.new])
     (by norm_num [Chunk.new]) rfl⟩

/-- Witness for C8: a fragment whose remapped light-space depth is 1.5
(outside the unit cube) with a constant depth map of 1/2 gets shadow
factor 1. -/
theorem calculateShadow_spec_witness :
    (∀ u v : ℝ, 0 ≤ (1 : ℝ) / 2 ∧ (1 : ℝ) / 2 ≤ 1) ∧
    (projX ⟨0, 0, 2, 1⟩ < 0 ∨ 1 < projX ⟨0, 0, 2, 1⟩ ∨
      projY ⟨0, 0, 2, 1⟩ < 0 ∨ 1 < projY ⟨0, 0, 2, 1⟩ ∨
      projZ ⟨0, 0, 2, 1⟩ < 0 ∨ 1 < projZ ⟨0, 0, 2, 1⟩) ∧
    calculateShadow ⟨0, 0, 2, 1⟩ ⟨0, 1, 0⟩ ⟨0, 1, 0⟩ (fun _ _ => 1 / 2) 0 0 = 1 :=
  ⟨fun _ _ => ⟨by norm_num, by norm_num⟩,
   Or.inr (Or.inr (Or.inr (Or.inr (Or.inr (by norm_num [projZ]))))),
   (calculateShadow_spec ⟨0, 0, 2, 1⟩ ⟨0, 1, 0⟩ ⟨0, 1, 0⟩ (fun _ _ => 1 / 2) 0 0
       (fun _ _ => ⟨by norm_num, by norm_num⟩)).1
     (Or.inr (Or.inr (Or.inr (Or.inr (Or.inr (by norm_num [projZ]))))))⟩
